import Mathlib

/-!
Verification of the Soluris ingestion-and-grounded-retrieval pipeline and of
the frontend scripts (frontend/js/app.js, frontend/js/auth.js).

The frontend scripts are embedded directly from the JavaScript source.  The
backend pipeline (retriever, chunker, fetcher, ingestion coordinator) is not
part of the checked-out sources, so those components are modelled from the
specification, as marked on each definition.
-/

namespace Soluris

/-! ## Frontend string handling (frontend/js/app.js) -/

/-- One global character-for-string replacement pass, the semantics of the
JavaScript `t.replace(/c/g, r)` used by `escapeHtml`. -/
def replaceAllChar (c : Char) (r : List Char) : List Char → List Char
  | [] => []
  | x :: xs => (if x = c then r else [x]) ++ replaceAllChar c r xs

/-- `escapeHtml` from frontend/js/app.js:
`t.replace(/&/g,'&amp;').replace(/</g,'&lt;').replace(/>/g,'&gt;')`.
The ampersand pass runs first, then the angle-bracket passes. -/
def escapeHtml (t : List Char) : List Char :=
  replaceAllChar '>' (("&gt;").data)
    (replaceAllChar '<' (("&lt;").data)
      (replaceAllChar '&' (("&amp;").data) t))

/-- The message-content branch of `appendMessage` in frontend/js/app.js:
user messages go through `escapeHtml`, assistant messages through
`renderMarkdown` (kept abstract here). -/
def renderMessageContent (renderMarkdown : List Char → List Char)
    (role : String) (content : List Char) : List Char :=
  if role = "user" then escapeHtml content else renderMarkdown content

/-- JavaScript `String.prototype.trim`: strip leading and trailing
whitespace. -/
def jsTrim (s : String) : String :=
  String.mk (((s.data.dropWhile Char.isWhitespace).reverse.dropWhile
      Char.isWhitespace).reverse)

/-! ## Signup flow (frontend/js/auth.js) -/

/-- Body of the POST to `/api/auth/signup`. -/
structure SignupRequest where
  name : String
  email : String
  password : String
deriving DecidableEq

/-- Shape of the JSON response the signup code inspects: `res.ok`,
`data.token`, `data.detail`. -/
structure ApiResponse where
  ok : Bool
  token : String
  detail : String
deriving DecidableEq

/-- Observable effects of the auth page scripts: showing an inline error,
issuing an HTTP request, writing the stored token, redirecting. -/
inductive PageEffect where
  | showError (element : String) (message : String)
  | httpPost (req : SignupRequest)
  | setToken (token : String)
  | redirect (target : String)
deriving DecidableEq

def PageEffect.isPost : PageEffect → Bool
  | .httpPost _ => true
  | _ => false

def PageEffect.isSetToken : PageEffect → Bool
  | .setToken _ => true
  | _ => false

def PageEffect.isShowError : PageEffect → Bool
  | .showError _ _ => true
  | _ => false

/-- `signup()` from frontend/js/auth.js.  Name and email fields are trimmed,
the password is not; empty fields and short passwords show an error and stop
before any request; otherwise the request is posted and, on a non-ok
response the error detail is shown, on an ok response the token is stored
and the page redirects to `/app`. -/
def signup (nameField emailField passwordField : String)
    (respond : SignupRequest → ApiResponse) : List PageEffect :=
  let name := jsTrim nameField
  let email := jsTrim emailField
  let password := passwordField
  if name = "" ∨ email = "" ∨ password = "" then
    [.showError ("signupError") ("Veuillez remplir tous les champs.")]
  else if password.length < 8 then
    [.showError ("signupError") ("Mot de passe : 8 caracteres minimum.")]
  else
    let data := respond ⟨name, email, password⟩
    if data.ok = false then
      [.httpPost ⟨name, email, password⟩,
       .showError ("signupError")
         (if data.detail = "" then "Erreur lors de la creation" else data.detail)]
    else
      [.httpPost ⟨name, email, password⟩, .setToken data.token, .redirect ("/app")]

/-! ## Retrieval filters (frontend/js/app.js `getFilters`, backend retriever) -/

/-- Optional jurisdiction / legal-domain filters, as produced by
`getFilters()` in frontend/js/app.js (empty select value becomes null). -/
structure RetrievalFilters where
  jurisdiction : Option String
  legalDomain : Option String
deriving DecidableEq

/-! ## Chat send flow (frontend/js/app.js `sendMessage`) -/

structure ChatMsg where
  role : String
  content : String
deriving DecidableEq

/-- Frontend chat state touched by `sendMessage`: conversation id, message
array, rendered messages, streaming flag, input field, send button,
welcome screen. -/
structure ChatState where
  conversationId : Option String
  messages : List ChatMsg
  displayed : List ChatMsg
  isStreaming : Bool
  inputValue : String
  sendBtnDisabled : Bool
  welcomeVisible : Bool
deriving DecidableEq

/-- Body of the POST to `/api/chat` built by `sendMessage`. -/
structure ChatRequest where
  message : String
  conversationId : Option String
  history : List ChatMsg
  jurisdiction : Option String
  legalDomain : Option String
deriving DecidableEq

/-- JavaScript `messages.slice(-10)`: the last `n` elements. -/
def lastN (n : Nat) (l : List ChatMsg) : List ChatMsg :=
  l.drop (l.length - n)

/-- The synchronous phase of `sendMessage()` in frontend/js/app.js, up to the
`fetch` call: the guard `if (!text || isStreaming) return;` and, when it
passes, the state updates (hide welcome, append and push the user message,
clear the input, set streaming, disable send) and the request body. -/
def sendMessageStart (filters : RetrievalFilters) (s : ChatState) :
    ChatState × Option ChatRequest :=
  let text := jsTrim s.inputValue
  if text = "" ∨ s.isStreaming = true then (s, none)
  else
    let msgs := s.messages ++ [⟨"user", text⟩]
    ({ s with
        welcomeVisible := false,
        displayed := s.displayed ++ [⟨"user", text⟩],
        messages := msgs,
        inputValue := "",
        isStreaming := true,
        sendBtnDisabled := true },
     some { message := text,
            conversationId := s.conversationId,
            history := lastN 10 msgs,
            jurisdiction := filters.jurisdiction,
            legalDomain := filters.legalDomain })

/-! ## Data model of the pipeline

Modelled from the spec: the backend data model (section 3 of the spec) is
not part of the checked-out sources. -/

/-- Modelled from the spec: a `Chunk` is a bounded slice of a legal document
with parent reference, ordinal, text, structural role, citation reference,
source URL, classification metadata and a nullable embedding. -/
structure Chunk where
  docOrigin : String
  docExternalId : String
  ordinal : Nat
  text : String
  structuralRole : String
  reference : String
  url : String
  jurisdiction : String
  legalDomain : String
  embedding : Option (List ℚ)
deriving DecidableEq

/-- Modelled from the spec: a fully fetched and extracted `LegalDocument`;
`(origin, externalId)` is its natural key. -/
structure LegalDocument where
  origin : String
  externalId : String
  kind : String
  title : String
  reference : String
  jurisdiction : String
  language : String
  content : String
  url : String
deriving DecidableEq

/-- Modelled from the spec: one harvestable unit of a remote catalog. -/
structure SourceCatalogEntry where
  sourceSystem : String
  catalogId : String
  docType : String
  format : String
  lastSeenCursor : Option Nat
deriving DecidableEq

/-! ## Retriever / grounding gate

Modelled from the spec: the retriever (`retrieve(query, filters?) →
EvidenceBundle | NoEvidence`, backend/services/rag.py) is not under the
checked-out sources.  The query embedding and the similarity metric are
abstracted into a score function on chunks. -/

/-- Does a chunk match the optional jurisdiction/domain filters? -/
def matchesFilters (f : RetrievalFilters) (c : Chunk) : Bool :=
  (match f.jurisdiction with
   | none => true
   | some j => c.jurisdiction == j) &&
  (match f.legalDomain with
   | none => true
   | some d => c.legalDomain == d)

/-- Filtered candidates paired with their similarity scores. -/
def scoredCandidates (corpus : List Chunk) (score : Chunk → ℚ)
    (f : RetrievalFilters) : List (Chunk × ℚ) :=
  (corpus.filter (matchesFilters f)).map (fun c => (c, score c))

/-- Insert into a list kept in descending score order. -/
def insertDesc (p : Chunk × ℚ) : List (Chunk × ℚ) → List (Chunk × ℚ)
  | [] => [p]
  | q :: qs => if q.2 ≤ p.2 then p :: q :: qs else q :: insertDesc p qs

/-- Rank scored chunks by descending similarity. -/
def sortByScoreDesc : List (Chunk × ℚ) → List (Chunk × ℚ)
  | [] => []
  | p :: ps => insertDesc p (sortByScoreDesc ps)

/-- Modelled from the spec: the per-query evidence bundle — ranked
(chunk, score) pairs passing the threshold plus the top score observed. -/
structure EvidenceBundle where
  items : List (Chunk × ℚ)
  maxScore : ℚ
deriving DecidableEq

/-- Modelled from the spec: terminal verdicts of the grounding gate. -/
inductive RetrievalVerdict where
  | grounded (bundle : EvidenceBundle)
  | noEvidence
deriving DecidableEq

/-- An empty filtered set yields the explicit `noEvidence` verdict, a
non-empty one a grounded bundle carrying its maximum score. -/
def groundIfEvidence : List (Chunk × ℚ) → RetrievalVerdict
  | [] => .noEvidence
  | p :: ps => .grounded ⟨p :: ps, (ps.map Prod.snd).foldl max p.2⟩

/-- Modelled from the spec: `retrieve` restricts the corpus to the filters,
ranks by similarity, keeps the fixed top-k, discards results below the
threshold, and returns a grounded bundle or the `noEvidence` verdict. -/
def retrieve (corpus : List Chunk) (score : Chunk → ℚ) (threshold : ℚ)
    (k : Nat) (f : RetrievalFilters) : RetrievalVerdict :=
  groundIfEvidence
    (((sortByScoreDesc (scoredCandidates corpus score f)).take k).filter
      (fun p => threshold ≤ p.2))

/-! ## Ingestion writes

Modelled from the spec: upserts keyed by `(origin, externalId)` for
documents, and transactional delete-and-regenerate of a document's chunk
set on re-ingestion. -/

/-- Upsert a document by its `(origin, externalId)` natural key: overwrite
in place, never duplicate. -/
def upsertDocument (d : LegalDocument) : List LegalDocument → List LegalDocument
  | [] => [d]
  | x :: xs =>
    if x.origin = d.origin ∧ x.externalId = d.externalId then d :: xs
    else x :: upsertDocument d xs

/-- Does a stored chunk belong to the document with the given key? -/
def chunkOfDoc (key : String × String) (c : Chunk) : Bool :=
  c.docOrigin == key.1 && c.docExternalId == key.2

/-- Replace the whole chunk set of one document: delete the old generation,
insert the new one. -/
def replaceChunks (key : String × String) (newChunks : List Chunk)
    (store : List Chunk) : List Chunk :=
  store.filter (fun c => !(chunkOfDoc key c)) ++ newChunks

/-- The durable store written by ingestion. -/
structure IngestStore where
  documents : List LegalDocument
  chunks : List Chunk
deriving DecidableEq

/-- Modelled from the spec: ingesting one catalog entry extracts a document,
upserts it by its natural key, and replaces its chunk set with the chunker
output.  Extraction and chunking are deterministic functions of the entry. -/
def ingestEntry (extract : SourceCatalogEntry → LegalDocument)
    (chunker : LegalDocument → List Chunk) (s : IngestStore)
    (e : SourceCatalogEntry) : IngestStore :=
  let d := extract e
  { documents := upsertDocument d s.documents,
    chunks := replaceChunks (d.origin, d.externalId) (chunker d) s.chunks }

/-! ## Chunker

Modelled from the spec: documents arrive as an ordered list of natural
units, each unit an ordered list of indivisible pieces (sentences or
paragraphs); a unit within the size bound becomes one chunk, an oversized
unit is split at piece boundaries, and only a single indivisible piece may
exceed the bound.  Texts are lists of characters. -/

/-- Greedy packing of an oversized unit's pieces into bound-sized chunks;
`acc` is the chunk under construction. -/
def packGo (bound : Nat) : List Char → List (List Char) → List (List Char)
  | acc, [] => [acc]
  | acc, s :: rest =>
    if (acc ++ s).length ≤ bound then packGo bound (acc ++ s) rest
    else acc :: packGo bound s rest

/-- Chunk one natural unit: keep it whole when it fits the size bound,
otherwise split it at piece boundaries. -/
def chunkUnit (bound : Nat) (u : List (List Char)) : List (List Char) :=
  if u.flatten.length ≤ bound then [u.flatten]
  else
    match u with
    | [] => []
    | s :: rest => packGo bound s rest

/-- Chunk a whole document, unit by unit, in order. -/
def chunkDocument (bound : Nat) (units : List (List (List Char))) :
    List (List Char) :=
  units.flatMap (chunkUnit bound)

/-! ## Fetcher pagination

Modelled from the spec: cursor-based pagination — request the next page
with the cursor returned by the previous call, stop on an empty page or a
missing continuation cursor, and abort with an error when a returned
cursor does not advance. -/

/-- One page of a remote catalog listing: its items and the continuation
cursor (`none` is the explicit end-of-list marker). -/
structure CatalogPage where
  items : List Nat
  next : Option Nat
deriving DecidableEq

/-- Outcome of a pagination run: all harvested items, or a defensive abort
on a cursor that failed to advance. -/
inductive FetchRunResult where
  | completed (items : List Nat)
  | cursorStuck (cursor : Nat)
deriving DecidableEq

/-- Modelled from the spec: the Fetcher pagination loop.  `fuel` bounds the
number of page requests; `none` means the fuel ran out before the source
was exhausted. -/
def fetchPages (f : Nat → CatalogPage) : Nat → Nat → List Nat → Option FetchRunResult
  | 0, _, _ => none
  | fuel + 1, cursor, acc =>
    let p := f cursor
    if p.items.isEmpty then some (.completed acc)
    else
      match p.next with
      | none => some (.completed (acc ++ p.items))
      | some c' =>
        if c' ≤ cursor then some (.cursorStuck cursor)
        else fetchPages f fuel c' (acc ++ p.items)

/-! ## Ingestion coordinator

Modelled from the spec: a run walks every catalog page and every item; a
permanently failing item is recorded as `ItemFailed` and skipped, never
aborting the batch. -/

/-- Modelled from the spec: process all pages item by item, collecting
ingested documents on extraction success and failed item ids on extraction
error. -/
def runIngestion (pages : List (List Nat)) (extract : Nat → Except String Nat) :
    List Nat × List Nat :=
  pages.foldl
    (fun acc page =>
      page.foldl
        (fun acc item =>
          match extract item with
          | Except.ok d => (acc.1 ++ [d], acc.2)
          | Except.error _ => (acc.1, acc.2 ++ [item]))
        acc)
    ([], [])

/-! ## Concrete sample data for witnesses -/

def sampleChunkGE : Chunk :=
  { docOrigin := "fedlex", docExternalId := "RS-220", ordinal := 0,
    text := "Celui qui cause un dommage le repare.",
    structuralRole := "article", reference := "Art. 41 CO",
    url := "https://fedlex.example/rs220-41", jurisdiction := "GE",
    legalDomain := "droit_civil", embedding := none }

def sampleChunkVD : Chunk :=
  { docOrigin := "entscheidsuche", docExternalId := "ATF-142-III-123", ordinal := 1,
    text := "Regeste de l'arret.", structuralRole := "regeste",
    reference := "ATF 142 III 123",
    url := "https://entscheidsuche.example/atf142", jurisdiction := "VD",
    legalDomain := "droit_public", embedding := none }

def sampleCorpus : List Chunk := [sampleChunkGE, sampleChunkVD]

def noFilters : RetrievalFilters := ⟨none, none⟩

def geFilter : RetrievalFilters := ⟨some ("GE"), none⟩

/-- A query score placing every chunk at similarity 0.20. -/
def lowScore : Chunk → ℚ := fun _ => mkRat 1 5

/-- A query score placing every chunk at similarity 0.50. -/
def geScore : Chunk → ℚ := fun _ => mkRat 1 2

def geBundle : EvidenceBundle := ⟨[(sampleChunkGE, mkRat 1 2)], mkRat 1 2⟩

def sampleEntry : SourceCatalogEntry :=
  ⟨"fedlex", "RS-220", "statute", "markup", none⟩

def sampleExtract : SourceCatalogEntry → LegalDocument := fun e =>
  { origin := e.sourceSystem, externalId := e.catalogId, kind := e.docType,
    title := "Code des obligations", reference := "RS 220",
    jurisdiction := "CH", language := "fr",
    content := "Art. 1 Le contrat est parfait.",
    url := "https://fedlex.example/rs220" }

def sampleChunker : LegalDocument → List Chunk := fun d =>
  [{ docOrigin := d.origin, docExternalId := d.externalId, ordinal := 0,
     text := d.content, structuralRole := "article", reference := d.reference,
     url := d.url, jurisdiction := d.jurisdiction,
     legalDomain := "droit_civil", embedding := none }]

def emptyStore : IngestStore := ⟨[], []⟩

def sampleUnits : List (List (List Char)) :=
  [[("Art. 1 ").data, ("Le contrat est parfait.").data],
   [("Art. 2 ").data, ("Reserve des formes speciales.").data]]

/-- A source with three pages and then an explicit end marker. -/
def samplePaginatedSource : Nat → CatalogPage :=
  fun c => if c < 3 then ⟨[c], some (c + 1)⟩ else ⟨[], none⟩

/-- A source whose returned cursor never advances. -/
def sampleStuckSource : Nat → CatalogPage :=
  fun c => ⟨[c], some c⟩

/-- Three catalog pages of one hundred items each. -/
def scenarioPages : List (List Nat) :=
  [List.range 100,
   (List.range 100).map (fun i => 100 + i),
   (List.range 100).map (fun i => 200 + i)]

/-- Extraction fails permanently for exactly five items of the second
page. -/
def scenarioExtract : Nat → Except String Nat :=
  fun item =>
    if 100 ≤ item ∧ item < 105 then Except.error ("extraction failed")
    else Except.ok item

def acceptRespond : SignupRequest → ApiResponse :=
  fun _ => ⟨true, "jwt-token", ""⟩

def idleState : ChatState :=
  { conversationId := none, messages := [], displayed := [],
    isStreaming := false, inputValue := "   ", sendBtnDisabled := false,
    welcomeVisible := true }

/-! ## Theorems: frontend scripts -/

theorem mem_replaceAllChar {x c : Char} {r l : List Char}
    (h : x ∈ replaceAllChar c r l) : x ∈ r ∨ (x ∈ l ∧ x ≠ c) := by
  induction l with
  | nil => simp [replaceAllChar] at h
  | cons y ys ih =>
    simp only [replaceAllChar, List.mem_append] at h
    rcases h with h | h
    · by_cases hy : y = c
      · rw [if_pos hy] at h
        exact Or.inl h
      · rw [if_neg hy] at h
        simp only [List.mem_singleton] at h
        subst h
        exact Or.inr ⟨List.mem_cons_self _ _, hy⟩
    · rcases ih h with h' | ⟨hmem, hne⟩
      · exact Or.inl h'
      · exact Or.inr ⟨List.mem_cons_of_mem _ hmem, hne⟩

theorem escapeHtml_no_lt (t : List Char) : '<' ∉ escapeHtml t := by
  intro h
  rcases mem_replaceAllChar h with h1 | ⟨h1, _⟩
  · exact absurd h1 (by decide)
  · rcases mem_replaceAllChar h1 with h2 | ⟨_, h2⟩
    · exact absurd h2 (by decide)
    · exact h2 rfl

theorem escapeHtml_no_gt (t : List Char) : '>' ∉ escapeHtml t := by
  intro h
  rcases mem_replaceAllChar h with h1 | ⟨_, h1⟩
  · exact absurd h1 (by decide)
  · exact h1 rfl

/-- C10: for every input, `escapeHtml` output contains no literal angle
bracket, and `appendMessage` renders user-role content exclusively through
`escapeHtml`, so no user message reaches the DOM as raw markup. -/
theorem escapeHtml_user_content_safe (t : List Char) :
    ('<' ∉ escapeHtml t ∧ '>' ∉ escapeHtml t) ∧
    ∀ (renderMarkdown : List Char → List Char) (content : List Char),
      renderMessageContent renderMarkdown ("user") content = escapeHtml content := by
  refine ⟨⟨escapeHtml_no_lt t, escapeHtml_no_gt t⟩, fun rm content => ?_⟩
  unfold renderMessageContent
  rw [if_pos rfl]

/-- Witness for C10 at a concrete string holding all three escaped
characters. -/
theorem escapeHtml_user_content_safe_witness :
    '<' ∉ escapeHtml (("a<b&c>d").data) ∧ '>' ∉ escapeHtml (("a<b&c>d").data) :=
  (escapeHtml_user_content_safe (("a<b&c>d").data)).1

theorem signup_empty_fields {n e p : String} (r : SignupRequest → ApiResponse)
    (h : jsTrim n = "" ∨ jsTrim e = "" ∨ p = "") :
    signup n e p r =
      [.showError ("signupError") ("Veuillez remplir tous les champs.")] := by
  simp only [signup]
  rw [if_pos h]

theorem signup_short_password {n e p : String} (r : SignupRequest → ApiResponse)
    (hne : ¬(jsTrim n = "" ∨ jsTrim e = "" ∨ p = "")) (hlen : p.length < 8) :
    signup n e p r =
      [.showError ("signupError") ("Mot de passe : 8 caracteres minimum.")] := by
  simp only [signup]
  rw [if_neg hne, if_pos hlen]

/-- C8: `signup()` validates before any effect — an empty name, email or
password field, or a password shorter than eight characters, shows an error
and stops with no HTTP request and no token write; a POST happens only when
all three fields are non-empty and the password has at least eight
characters. -/
theorem signup_validates_before_effect (n e p : String)
    (respond : SignupRequest → ApiResponse) :
    ((n = "" ∨ e = "" ∨ p = "" ∨ p.length < 8) →
      (signup n e p respond).any PageEffect.isShowError = true ∧
      (signup n e p respond).any PageEffect.isPost = false ∧
      (signup n e p respond).any PageEffect.isSetToken = false) ∧
    ((signup n e p respond).any PageEffect.isPost = true →
      n ≠ "" ∧ e ≠ "" ∧ p ≠ "" ∧ 8 ≤ p.length) := by
  constructor
  · intro h
    by_cases hg : jsTrim n = "" ∨ jsTrim e = "" ∨ p = ""
    · rw [signup_empty_fields respond hg]
      exact ⟨rfl, rfl, rfl⟩
    · have hlen : p.length < 8 := by
        rcases h with h | h | h | h
        · exact absurd (Or.inl (by rw [h]; rfl)) hg
        · exact absurd (Or.inr (Or.inl (by rw [h]; rfl))) hg
        · exact absurd (Or.inr (Or.inr h)) hg
        · exact h
      rw [signup_short_password respond hg hlen]
      exact ⟨rfl, rfl, rfl⟩
  · intro hpost
    by_cases hg : jsTrim n = "" ∨ jsTrim e = "" ∨ p = ""
    · rw [signup_empty_fields respond hg] at hpost
      exact absurd hpost (by decide)
    · by_cases hlen : p.length < 8
      · rw [signup_short_password respond hg hlen] at hpost
        exact absurd hpost (by decide)
      · rw [not_or, not_or] at hg
        obtain ⟨hn, he, hp⟩ := hg
        refine ⟨?_, ?_, hp, not_lt.mp hlen⟩
        · intro hn0
          exact hn (by rw [hn0]; rfl)
        · intro he0
          exact he (by rw [he0]; rfl)

/-- Witness for C8: an empty name field shows the error and issues no
request and no token write. -/
theorem signup_validates_before_effect_witness :
    (("" : String) = "" ∨ ("avocat@soluris.ch" : String) = "" ∨
      ("motdepasse" : String) = "" ∨ ("motdepasse" : String).length < 8) ∧
    ((signup "" "avocat@soluris.ch" "motdepasse" acceptRespond).any
        PageEffect.isShowError = true ∧
      (signup "" "avocat@soluris.ch" "motdepasse" acceptRespond).any
        PageEffect.isPost = false ∧
      (signup "" "avocat@soluris.ch" "motdepasse" acceptRespond).any
        PageEffect.isSetToken = false) :=
  ⟨Or.inl rfl,
    (signup_validates_before_effect "" "avocat@soluris.ch" "motdepasse"
      acceptRespond).1 (Or.inl rfl)⟩

/-- C9: `sendMessage` is a no-op on invalid state — when the trimmed input
is empty or a send is still streaming, it returns at once with no request
and the whole chat state (messages, conversation id, displayed messages)
unchanged. -/
theorem sendMessage_noop_on_invalid_state (filters : RetrievalFilters)
    (s : ChatState)
    (h : jsTrim s.inputValue = "" ∨ s.isStreaming = true) :
    sendMessageStart filters s = (s, none) := by
  simp only [sendMessageStart]
  rw [if_pos h]

/-- Witness for C9 at a state whose input is all whitespace. -/
theorem sendMessage_noop_on_invalid_state_witness :
    (jsTrim idleState.inputValue = "" ∨ idleState.isStreaming = true) ∧
    sendMessageStart noFilters idleState = (idleState, none) :=
  ⟨Or.inl (by decide),
    sendMessage_noop_on_invalid_state noFilters idleState (Or.inl (by decide))⟩

/-! ## Theorems: retriever / grounding gate -/

theorem mem_insertDesc {x p : Chunk × ℚ} {l : List (Chunk × ℚ)} :
    x ∈ insertDesc p l ↔ x = p ∨ x ∈ l := by
  induction l with
  | nil => simp [insertDesc]
  | cons q qs ih =>
    by_cases h : q.2 ≤ p.2
    · simp [insertDesc, h]
    · simp [insertDesc, h, ih]
      tauto

theorem mem_sortByScoreDesc {x : Chunk × ℚ} {l : List (Chunk × ℚ)} :
    x ∈ sortByScoreDesc l ↔ x ∈ l := by
  induction l with
  | nil => simp [sortByScoreDesc]
  | cons p ps ih => simp [sortByScoreDesc, mem_insertDesc, ih]

theorem sortByScoreDesc_head_max {l : List (Chunk × ℚ)} {p : Chunk × ℚ}
    {rest : List (Chunk × ℚ)} (h : sortByScoreDesc l = p :: rest) :
    ∀ q ∈ l, q.2 ≤ p.2 := by
  induction l generalizing p rest with
  | nil => simp [sortByScoreDesc] at h
  | cons a as ih =>
    intro q hq
    simp only [sortByScoreDesc] at h
    cases hs : sortByScoreDesc as with
    | nil =>
      rw [hs] at h
      simp only [insertDesc] at h
      obtain ⟨hp, -⟩ := List.cons.inj h
      rcases List.mem_cons.mp hq with rfl | hq'
      · exact le_of_eq (congrArg Prod.snd hp.symm).symm
      · have hmem := mem_sortByScoreDesc.mpr hq'
        rw [hs] at hmem
        cases hmem
    | cons y ys =>
      rw [hs] at h
      by_cases hle : y.2 ≤ a.2
      · rw [insertDesc, if_pos hle] at h
        obtain ⟨hp, -⟩ := List.cons.inj h
        rcases List.mem_cons.mp hq with rfl | hq'
        · exact le_of_eq (congrArg Prod.snd hp.symm).symm
        · exact le_trans (le_trans (ih hs q hq') hle) (le_of_eq (congrArg Prod.snd hp))
      · rw [insertDesc, if_neg hle] at h
        obtain ⟨hp, -⟩ := List.cons.inj h
        rcases List.mem_cons.mp hq with rfl | hq'
        · exact le_trans (le_of_lt (lt_of_not_le hle)) (le_of_eq (congrArg Prod.snd hp))
        · exact le_trans (ih hs q hq') (le_of_eq (congrArg Prod.snd hp))

theorem groundIfEvidence_eq_grounded {l : List (Chunk × ℚ)} {b : EvidenceBundle}
    (h : groundIfEvidence l = .grounded b) : b.items = l ∧ l ≠ [] := by
  cases l with
  | nil => exact absurd h (by simp [groundIfEvidence])
  | cons p ps =>
    simp only [groundIfEvidence, RetrievalVerdict.grounded.injEq] at h
    rw [← h]
    exact ⟨rfl, by simp⟩

theorem filter_threshold_nil {threshold : ℚ} {l : List (Chunk × ℚ)}
    (h : ∀ p ∈ l, p.2 < threshold) :
    l.filter (fun p => threshold ≤ p.2) = [] := by
  rw [List.filter_eq_nil_iff]
  intro p hp
  simpa using not_le.mpr (h p hp)

theorem retrieve_eq_noEvidence {corpus : List Chunk} {score : Chunk → ℚ}
    {threshold : ℚ} {k : Nat} {f : RetrievalFilters}
    (h : ∀ c ∈ corpus.filter (matchesFilters f), score c < threshold) :
    retrieve corpus score threshold k f = .noEvidence := by
  unfold retrieve
  have hall : ∀ p ∈ (sortByScoreDesc (scoredCandidates corpus score f)).take k,
      p.2 < threshold := by
    intro p hp
    have hmem := List.mem_of_mem_take hp
    rw [mem_sortByScoreDesc, scoredCandidates, List.mem_map] at hmem
    obtain ⟨c, hc, hpc⟩ := hmem
    rw [← hpc]
    exact h c hc
  rw [filter_threshold_nil hall]
  rfl

/-- C1: whenever no filtered chunk reaches the similarity threshold,
`retrieve` returns the explicit `noEvidence` verdict; and a grounded bundle
is never empty. -/
theorem retrieval_noEvidence_on_weak_evidence (corpus : List Chunk)
    (score : Chunk → ℚ) (threshold : ℚ) (k : Nat) (f : RetrievalFilters) :
    ((∀ c ∈ corpus.filter (matchesFilters f), score c < threshold) →
      retrieve corpus score threshold k f = .noEvidence) ∧
    (∀ b, retrieve corpus score threshold k f = .grounded b → b.items ≠ []) := by
  constructor
  · exact fun h => retrieve_eq_noEvidence h
  · intro b hb
    unfold retrieve at hb
    obtain ⟨hitems, hne⟩ := groundIfEvidence_eq_grounded hb
    rw [hitems]
    exact hne

/-- Witness for C1: a corpus whose every chunk scores 0.20 against a 0.35
threshold yields `noEvidence`. -/
theorem retrieval_noEvidence_on_weak_evidence_witness :
    retrieve sampleCorpus lowScore (mkRat 7 20) 10 noFilters =
      RetrievalVerdict.noEvidence :=
  (retrieval_noEvidence_on_weak_evidence sampleCorpus lowScore (mkRat 7 20)
    10 noFilters).1 (by decide)

/-- C2: the threshold is a pure boundary — with top similarity 0.20 among
the filtered candidates, threshold 0.35 yields `noEvidence` while threshold
0.15 yields a non-empty grounded bundle. -/
theorem retrieval_threshold_pure_boundary (corpus : List Chunk)
    (score : Chunk → ℚ) (k : Nat) (f : RetrievalFilters) (hk : 1 ≤ k)
    (htop : ∃ c ∈ corpus.filter (matchesFilters f), score c = mkRat 1 5)
    (hmax : ∀ c ∈ corpus.filter (matchesFilters f), score c ≤ mkRat 1 5) :
    retrieve corpus score (mkRat 7 20) k f = .noEvidence ∧
    ∃ b, retrieve corpus score (mkRat 3 20) k f = .grounded b ∧
      b.items ≠ [] := by
  constructor
  · exact retrieve_eq_noEvidence
      (fun c hc => lt_of_le_of_lt (hmax c hc) (by decide))
  · obtain ⟨c0, hc0, hs0⟩ := htop
    have hc0' : (c0, score c0) ∈ scoredCandidates corpus score f := by
      rw [scoredCandidates]
      exact List.mem_map_of_mem _ hc0
    cases hE : sortByScoreDesc (scoredCandidates corpus score f) with
    | nil =>
      rw [← mem_sortByScoreDesc, hE] at hc0'
      cases hc0'
    | cons p rest =>
      have hpmax : mkRat 1 5 ≤ p.2 := by
        have h1 := sortByScoreDesc_head_max hE (c0, score c0) hc0'
        simpa [hs0] using h1
      have hpth : mkRat 3 20 ≤ p.2 := le_trans (by decide) hpmax
      obtain ⟨k', rfl⟩ : ∃ k', k = k' + 1 :=
        ⟨k - 1, (Nat.succ_pred_eq_of_pos hk).symm⟩
      have hre : retrieve corpus score (mkRat 3 20) (k' + 1) f =
          groundIfEvidence (((p :: rest).take (k' + 1)).filter
            (fun q => mkRat 3 20 ≤ q.2)) := by
        unfold retrieve
        rw [hE]
      rw [List.take_succ_cons, List.filter_cons_of_pos (by simpa using hpth)] at hre
      refine ⟨⟨p :: (rest.take k').filter (fun q => mkRat 3 20 ≤ q.2),
        ((((rest.take k').filter (fun q => mkRat 3 20 ≤ q.2)).map
          Prod.snd).foldl max p.2)⟩, ?_, by simp⟩
      rw [hre]
      rfl

/-- Witness for C2: on the sample corpus scored at 0.20, threshold 0.35
gives `noEvidence` and threshold 0.15 does not. -/
theorem retrieval_threshold_pure_boundary_witness :
    retrieve sampleCorpus lowScore (mkRat 7 20) 10 noFilters =
      RetrievalVerdict.noEvidence ∧
    retrieve sampleCorpus lowScore (mkRat 3 20) 10 noFilters ≠
      RetrievalVerdict.noEvidence := by
  have h := retrieval_threshold_pure_boundary sampleCorpus lowScore 10
    noFilters (by decide) ⟨sampleChunkGE, by decide, by decide⟩ (by decide)
  refine ⟨h.1, ?_⟩
  obtain ⟨b, hb, -⟩ := h.2
  rw [hb]
  simp

/-- C3: filter consistency — every chunk of a grounded bundle matches the
requested jurisdiction filter, and likewise the legal-domain filter. -/
theorem retrieval_filter_consistency (corpus : List Chunk) (score : Chunk → ℚ)
    (threshold : ℚ) (k : Nat) (jf df : Option String) (b : EvidenceBundle)
    (hb : retrieve corpus score threshold k ⟨jf, df⟩ = .grounded b) :
    ∀ p ∈ b.items,
      (∀ X, jf = some X → p.1.jurisdiction = X) ∧
      (∀ D, df = some D → p.1.legalDomain = D) := by
  intro p hp
  unfold retrieve at hb
  obtain ⟨hitems, -⟩ := groundIfEvidence_eq_grounded hb
  rw [hitems] at hp
  have hp1 := List.mem_of_mem_filter hp
  have hp2 := List.mem_of_mem_take hp1
  rw [mem_sortByScoreDesc, scoredCandidates, List.mem_map] at hp2
  obtain ⟨c, hc, hpc⟩ := hp2
  rw [List.mem_filter] at hc
  obtain ⟨-, hmf⟩ := hc
  rw [matchesFilters, Bool.and_eq_true] at hmf
  obtain ⟨hj, hd⟩ := hmf
  have hcp : c = p.1 := congrArg Prod.fst hpc
  constructor
  · intro X hX
    subst hX
    simp only at hj
    rw [← hcp]
    exact eq_of_beq hj
  · intro D hD
    subst hD
    simp only at hd
    rw [← hcp]
    exact eq_of_beq hd

/-- Witness for C3: a jurisdiction-filtered retrieval over the sample
corpus returns only the Geneva chunk. -/
theorem retrieval_filter_consistency_witness :
    retrieve sampleCorpus geScore (mkRat 7 20) 10 geFilter =
      RetrievalVerdict.grounded geBundle ∧
    sampleChunkGE.jurisdiction = "GE" := by
  have hb : retrieve sampleCorpus geScore (mkRat 7 20) 10 geFilter =
      RetrievalVerdict.grounded geBundle := by decide
  refine ⟨hb, ?_⟩
  have h := retrieval_filter_consistency sampleCorpus geScore (mkRat 7 20) 10
    (some ("GE")) none geBundle hb (sampleChunkGE, mkRat 1 2) (by decide)
  exact h.1 ("GE") rfl

/-! ## Theorems: ingestion writes -/

theorem upsertDocument_idem (d : LegalDocument) (l : List LegalDocument) :
    upsertDocument d (upsertDocument d l) = upsertDocument d l := by
  induction l with
  | nil => simp [upsertDocument]
  | cons x xs ih =>
    by_cases h : x.origin = d.origin ∧ x.externalId = d.externalId
    · have h1 : upsertDocument d (x :: xs) = d :: xs := by
        simp only [upsertDocument]
        rw [if_pos h]
      rw [h1]
      simp [upsertDocument]
    · have h1 : upsertDocument d (x :: xs) = x :: upsertDocument d xs := by
        simp only [upsertDocument]
        rw [if_neg h]
      rw [h1]
      simp only [upsertDocument]
      rw [if_neg h, ih]

theorem filter_not_chunkOfDoc_of_all {key : String × String} {new : List Chunk}
    (hnew : ∀ c ∈ new, chunkOfDoc key c = true) :
    new.filter (fun c => !(chunkOfDoc key c)) = [] := by
  rw [List.filter_eq_nil_iff]
  intro c hc
  simp [hnew c hc]

theorem replaceChunks_idem {key : String × String} {new store : List Chunk}
    (hnew : ∀ c ∈ new, chunkOfDoc key c = true) :
    replaceChunks key new (replaceChunks key new store) =
      replaceChunks key new store := by
  unfold replaceChunks
  rw [List.filter_append, filter_not_chunkOfDoc_of_all hnew, List.append_nil,
    List.filter_filter]
  simp [Bool.and_self]

theorem replaceChunks_filter_key {key : String × String} {new store : List Chunk}
    (hnew : ∀ c ∈ new, chunkOfDoc key c = true) :
    (replaceChunks key new store).filter (chunkOfDoc key) = new := by
  unfold replaceChunks
  rw [List.filter_append]
  have h1 : (store.filter (fun c => !(chunkOfDoc key c))).filter
      (chunkOfDoc key) = [] := by
    rw [List.filter_filter, List.filter_eq_nil_iff]
    intro c hc
    simp
  have h2 : new.filter (chunkOfDoc key) = new :=
    List.filter_eq_self.mpr (fun c hc => hnew c hc)
  rw [h1, h2, List.nil_append]

/-- C4: re-ingesting an unchanged catalog entry is idempotent — documents
are upserted by their `(origin, externalId)` natural key and the
document's chunk set is replaced wholesale, so a second run leaves the
store exactly as the first left it, and the document's stored chunks are
exactly the chunker output (no duplicates). -/
theorem ingestion_idempotent (extract : SourceCatalogEntry → LegalDocument)
    (chunker : LegalDocument → List Chunk) (s : IngestStore)
    (e : SourceCatalogEntry)
    (hch : ∀ c ∈ chunker (extract e),
      c.docOrigin = (extract e).origin ∧
      c.docExternalId = (extract e).externalId) :
    ingestEntry extract chunker (ingestEntry extract chunker s e) e =
      ingestEntry extract chunker s e ∧
    (ingestEntry extract chunker s e).chunks.filter
      (chunkOfDoc ((extract e).origin, (extract e).externalId)) =
      chunker (extract e) := by
  have hnew : ∀ c ∈ chunker (extract e),
      chunkOfDoc ((extract e).origin, (extract e).externalId) c = true := by
    intro c hc
    obtain ⟨h1, h2⟩ := hch c hc
    simp [chunkOfDoc, h1, h2]
  constructor
  · simp only [ingestEntry]
    rw [upsertDocument_idem, replaceChunks_idem hnew]
  · simp only [ingestEntry]
    exact replaceChunks_filter_key hnew

/-- Witness for C4: ingesting the sample catalog entry twice equals
ingesting it once. -/
theorem ingestion_idempotent_witness :
    ingestEntry sampleExtract sampleChunker
        (ingestEntry sampleExtract sampleChunker emptyStore sampleEntry)
        sampleEntry =
      ingestEntry sampleExtract sampleChunker emptyStore sampleEntry :=
  (ingestion_idempotent sampleExtract sampleChunker emptyStore sampleEntry
    (by decide)).1

/-! ## Theorems: chunker -/

theorem packGo_flatten (bound : Nat) :
    ∀ (l : List (List Char)) (acc : List Char),
      (packGo bound acc l).flatten = acc ++ l.flatten := by
  intro l
  induction l with
  | nil =>
    intro acc
    simp [packGo]
  | cons s rest ih =>
    intro acc
    simp only [packGo]
    by_cases h : (acc ++ s).length ≤ bound
    · rw [if_pos h, ih]
      simp [List.append_assoc]
    · rw [if_neg h]
      simp [ih]

theorem chunkUnit_flatten (bound : Nat) (u : List (List Char)) :
    (chunkUnit bound u).flatten = u.flatten := by
  unfold chunkUnit
  by_cases h : u.flatten.length ≤ bound
  · rw [if_pos h]
    simp
  · rw [if_neg h]
    cases u with
    | nil => simp at h
    | cons s rest => simp [packGo_flatten]

theorem chunkDocument_flatten (bound : Nat) (units : List (List (List Char))) :
    (chunkDocument bound units).flatten = (units.map List.flatten).flatten := by
  induction units with
  | nil => simp [chunkDocument]
  | cons u rest ih =>
    simp only [chunkDocument, List.flatMap_cons, List.flatten_append,
      List.map_cons, List.flatten_cons, chunkUnit_flatten]
    simp only [chunkDocument] at ih
    rw [ih]

theorem packGo_mem (bound : Nat) :
    ∀ (l : List (List Char)) (acc c : List Char),
      c ∈ packGo bound acc l → c.length ≤ bound ∨ c = acc ∨ c ∈ l := by
  intro l
  induction l with
  | nil =>
    intro acc c hc
    simp only [packGo, List.mem_singleton] at hc
    exact Or.inr (Or.inl hc)
  | cons s rest ih =>
    intro acc c hc
    simp only [packGo] at hc
    by_cases h : (acc ++ s).length ≤ bound
    · rw [if_pos h] at hc
      rcases ih (acc ++ s) c hc with h1 | h1 | h1
      · exact Or.inl h1
      · exact Or.inl (h1 ▸ h)
      · exact Or.inr (Or.inr (List.mem_cons_of_mem _ h1))
    · rw [if_neg h] at hc
      rcases List.mem_cons.mp hc with rfl | hc'
      · exact Or.inr (Or.inl rfl)
      · rcases ih s c hc' with h1 | h1 | h1
        · exact Or.inl h1
        · refine Or.inr (Or.inr ?_)
          rw [h1]
          exact List.mem_cons_self _ _
        · exact Or.inr (Or.inr (List.mem_cons_of_mem _ h1))

theorem chunkUnit_mem (bound : Nat) (u : List (List Char)) (c : List Char)
    (hc : c ∈ chunkUnit bound u) : c.length ≤ bound ∨ c ∈ u := by
  unfold chunkUnit at hc
  by_cases h : u.flatten.length ≤ bound
  · rw [if_pos h] at hc
    simp only [List.mem_singleton] at hc
    subst hc
    exact Or.inl h
  · rw [if_neg h] at hc
    cases u with
    | nil => cases hc
    | cons s rest =>
      rcases packGo_mem bound rest s c hc with h1 | h1 | h1
      · exact Or.inl h1
      · refine Or.inr ?_
        rw [h1]
        exact List.mem_cons_self _ _
      · exact Or.inr (List.mem_cons_of_mem _ h1)

/-- C5: the chunk set of every document covers its full text in order with
no gaps, and every chunk respects the size bound except one that is a
single indivisible natural piece. -/
theorem chunker_coverage_bounded (bound : Nat)
    (units : List (List (List Char))) :
    (chunkDocument bound units).flatten = (units.map List.flatten).flatten ∧
    ∀ c ∈ chunkDocument bound units,
      c.length ≤ bound ∨ ∃ u ∈ units, c ∈ u := by
  refine ⟨chunkDocument_flatten bound units, ?_⟩
  intro c hc
  rw [chunkDocument, List.mem_flatMap] at hc
  obtain ⟨u, hu, hcu⟩ := hc
  rcases chunkUnit_mem bound u c hcu with h | h
  · exact Or.inl h
  · exact Or.inr ⟨u, hu, h⟩

/-- Witness for C5: coverage on the sample document at the 2500-character
bound. -/
theorem chunker_coverage_bounded_witness :
    (chunkDocument 2500 sampleUnits).flatten =
      (sampleUnits.map List.flatten).flatten :=
  (chunker_coverage_bounded 2500 sampleUnits).1

/-! ## Theorems: fetcher pagination -/

theorem fetchPages_total (f : Nat → CatalogPage) (N : Nat)
    (hN : ∀ c, N ≤ c → (f c).items = [] ∨ (f c).next = none) :
    ∀ fuel cursor acc, N < cursor + fuel → 1 ≤ fuel →
      ∃ r, fetchPages f fuel cursor acc = some r := by
  intro fuel
  induction fuel with
  | zero =>
    intro cursor acc hlt h1
    exact absurd h1 (by omega)
  | succ fuel ih =>
    intro cursor acc hlt h1
    cases hi : (f cursor).items.isEmpty with
    | true => exact ⟨.completed acc, by simp [fetchPages, hi]⟩
    | false =>
      cases hn : (f cursor).next with
      | none =>
        exact ⟨.completed (acc ++ (f cursor).items), by simp [fetchPages, hi, hn]⟩
      | some c' =>
        by_cases hle : c' ≤ cursor
        · exact ⟨.cursorStuck cursor, by simp [fetchPages, hi, hn, hle]⟩
        · have hcur : cursor < N := by
            by_contra hcon
            push_neg at hcon
            rcases hN cursor hcon with h0 | h0
            · rw [h0] at hi
              simp at hi
            · rw [h0] at hn
              cases hn
          have hfuel1 : 1 ≤ fuel := by omega
          have hlt' : N < c' + fuel := by omega
          obtain ⟨r, hr⟩ := ih c' (acc ++ (f cursor).items) hlt' hfuel1
          exact ⟨r, by simp [fetchPages, hi, hn, hle, hr]⟩

theorem fetchPages_stuck_detected (f : Nat → CatalogPage) (fuel cursor : Nat)
    (acc : List Nat) (c' : Nat) (hi : (f cursor).items ≠ [])
    (hn : (f cursor).next = some c') (hle : c' ≤ cursor) :
    fetchPages f (fuel + 1) cursor acc = some (.cursorStuck cursor) := by
  have hi' : (f cursor).items.isEmpty = false := by
    cases hmm : (f cursor).items with
    | nil => exact absurd hmm hi
    | cons a as => rfl
  simp [fetchPages, hi', hn, hle]

/-- C6: the pagination loop always terminates for a source that eventually
signals exhaustion — each request uses the cursor returned by the previous
call, the loop stops on an empty page or a missing continuation cursor,
and a cursor that fails to advance is detected and aborts the run with an
explicit error. -/
theorem fetcher_pagination_defensive (f : Nat → CatalogPage) (N : Nat) :
    ((∀ c, N ≤ c → (f c).items = [] ∨ (f c).next = none) →
      ∀ fuel cursor acc, N < cursor + fuel → 1 ≤ fuel →
        ∃ r, fetchPages f fuel cursor acc = some r) ∧
    (∀ fuel cursor acc c', (f cursor).items ≠ [] →
      (f cursor).next = some c' → c' ≤ cursor →
      fetchPages f (fuel + 1) cursor acc = some (.cursorStuck cursor)) :=
  ⟨fetchPages_total f N,
    fun fuel cursor acc c' => fetchPages_stuck_detected f fuel cursor acc c'⟩

/-- Witness for C6: the three-page sample source completes within its fuel,
and the never-advancing source aborts with the cursor error. -/
theorem fetcher_pagination_defensive_witness :
    (fetchPages samplePaginatedSource 5 0 []).isSome = true ∧
    fetchPages sampleStuckSource 1 0 [] =
      some (FetchRunResult.cursorStuck 0) := by
  constructor
  · have hN : ∀ c, 3 ≤ c →
        (samplePaginatedSource c).items = [] ∨
        (samplePaginatedSource c).next = none := by
      intro c hc
      left
      simp [samplePaginatedSource, Nat.not_lt.mpr hc]
    obtain ⟨r, hr⟩ := (fetcher_pagination_defensive samplePaginatedSource 3).1
      hN 5 0 [] (by decide) (by decide)
    rw [hr]
    rfl
  · exact (fetcher_pagination_defensive sampleStuckSource 0).2 0 0 [] 0
      (by decide) (by decide) (by decide)

/-! ## Theorems: ingestion coordinator -/

set_option maxRecDepth 100000 in
/-- C7: with three catalog pages of one hundred items each and five items
of the second page failing extraction permanently, the run completes with
exactly 295 ingested documents and exactly the five failed items recorded,
all 300 items accounted for. -/
theorem per_item_failure_accounting :
    (runIngestion scenarioPages scenarioExtract).1.length = 295 ∧
    (runIngestion scenarioPages scenarioExtract).2 =
      [100, 101, 102, 103, 104] ∧
    (runIngestion scenarioPages scenarioExtract).1.length +
      (runIngestion scenarioPages scenarioExtract).2.length = 300 := by
  decide

end Soluris
